import Mathlib

/-!
Verification of `mchp-pack-downloader.py`.

The file shallowly embeds the script's core pipeline:
  * `DevicePack.init` models `DevicePack.__init__` (pack-name parsing);
    Python exceptions become `Except.error` carrying the exception message.
  * `DevicePack.keep_this_pack` models the family whitelist predicate.
  * `PacksHtmlParser.handle_starttag` / `feedTags` model the HTML start-tag
    callback and a feed of start-tag events.  The tokenisation of raw HTML
    into start-tag events is done by Python's `html.parser.HTMLParser`
    library and is outside the repository, so the embedding starts at the
    stream of `(tag, attrs)` events the library delivers to the callback.
  * `latest_packs` / `reportLines` model the `__main__` reduce and report
    loops; the insertion-ordered Python `dict` becomes an association list
    updated in place.

Python builtins used by the script (`str.split`, `str.rsplit`, `int`,
`str.lower`, `str.startswith`, `str.endswith`) are modelled on `List Char`
for their ASCII behaviour, which covers every string the script manipulates.
-/

/-- Character-level model of the whitespace stripped by Python `str.strip()`
(ASCII part). -/
def pyIsSpace (c : Char) : Bool :=
  c = ' ' || c = '\t' || c = '\n' || c = '\r' || c = '\x0B' || c = '\x0C'

/-- Python `s.strip()`: drop leading and trailing whitespace. -/
def pyStrip (l : List Char) : List Char :=
  ((l.dropWhile pyIsSpace).reverse.dropWhile pyIsSpace).reverse

/-- Numeric value of an ASCII digit. -/
def digitVal (c : Char) : Nat := c.toNat - '0'.toNat

/-- Accumulating scan of the digits of a Python integer literal after its
first digit: digits extend the accumulator, and an underscore is legal only
when a digit follows it immediately (Python 3 digit grouping). -/
def digitsValAux (acc : Nat) : List Char → Option Nat
  | [] => some acc
  | c :: rest =>
    if c.isDigit then digitsValAux (10 * acc + digitVal c) rest
    else if c = '_' then
      match rest with
      | d :: rest2 =>
        if d.isDigit then digitsValAux (10 * acc + digitVal d) rest2 else none
      | [] => none
    else none

/-- Value of a nonempty digit sequence (with Python 3 underscore grouping);
`none` when the text is not such a sequence.  The first character must be a
digit, so an underscore may not open the sequence or follow the sign. -/
def digitsVal : List Char → Option Nat
  | [] => none
  | c :: rest => if c.isDigit then digitsValAux (digitVal c) rest else none

/-- Model of Python `int(s)` for ASCII text: optional surrounding
whitespace, an optional `+` or `-` sign, then a nonempty digit sequence with
optional underscore grouping.  Anything else raises `ValueError`, modelled
as `none`. -/
def pyInt (l : List Char) : Option Int :=
  match pyStrip l with
  | '+' :: rest => (digitsVal rest).map (fun n => (n : Int))
  | '-' :: rest => (digitsVal rest).map (fun n => -(n : Int))
  | t => (digitsVal t).map (fun n => (n : Int))

/-- Python `s.split(sep)` for a one-character separator: fields between
occurrences of the separator, so the empty string gives `[[]]` and a
trailing separator gives a trailing empty field. -/
def splitChar (sep : Char) : List Char → List (List Char)
  | [] => [[]]
  | c :: rest =>
    if c = sep then [] :: splitChar sep rest
    else
      match splitChar sep rest with
      | [] => [[c]]
      | field :: more => (c :: field) :: more

/-- Python `s.rsplit(sep, 1)[-1]`: the text after the last occurrence of the
separator (the whole string when the separator is absent), which equals the
last field of the full split. -/
def rsplitLast (sep : Char) (l : List Char) : List Char :=
  (splitChar sep l).getLastD []

/-- `PACKS_EXTENSION` constant of the script. -/
def PACKS_EXTENSION : String := ".atpack"

/-- Model of the `DevicePack` object: the fields assigned by `__init__`. -/
structure DevicePack where
  path : String
  manufacturer : String
  family : String
  version_str : String
  version : Int
  extension : String
deriving DecidableEq, Repr

/-- The version key computed inline in `__init__`:
`10_000_000_000 * int(parts[2]) + 100_000 * int(parts[3]) + int(parts[4])`. -/
def versionKey (x y z : Int) : Int :=
  10000000000 * x + 100000 * y + z

/-- The dot-separated fields of the bare file name of a path, as computed by
`__init__`: `name = path.rsplit('/', 1)[-1]` then `parts = name.split('.')`. -/
def bareParts (path : String) : List (List Char) :=
  splitChar '.' (rsplitLast '/' path.data)

/-- Model of `DevicePack.__init__(path)`.  A raised `ValueError` becomes
`Except.error` with the f-string message.  `version_str` joins the raw texts
of fields 2–4 (`f'{parts[2]}.{parts[3]}.{parts[4]}'`), and `version` is
`versionKey` of the fields parsed by Python `int`. -/
def DevicePack.init (path : String) : Except String DevicePack :=
  let parts := bareParts path
  if parts.length = 6 then
    match pyInt (parts.getD 2 []), pyInt (parts.getD 3 []), pyInt (parts.getD 4 []) with
    | some x, some y, some z =>
      Except.ok
        { path := path
          manufacturer := String.mk (parts.getD 0 [])
          family := String.mk (parts.getD 1 [])
          version_str :=
            String.mk ((parts.getD 2 []) ++ ('.' :: (parts.getD 3 [])) ++ ('.' :: (parts.getD 4 [])))
          version := versionKey x y z
          extension := String.mk (parts.getD 5 []) }
    | _, _, _ => Except.error ("Unable to parse version from pack " ++ path)
  else
    Except.error ("Unexpected pack name format for pack " ++ path)

instance {ε α : Type} [DecidableEq ε] [DecidableEq α] : DecidableEq (Except ε α) := fun x y =>
  match x, y with
  | .ok a, .ok b =>
    if h : a = b then .isTrue (by rw [h]) else .isFalse (by intro hc; cases hc; exact h rfl)
  | .error a, .error b =>
    if h : a = b then .isTrue (by rw [h]) else .isFalse (by intro hc; cases hc; exact h rfl)
  | .ok _, .error _ => .isFalse (by intro hc; cases hc)
  | .error _, .ok _ => .isFalse (by intro hc; cases hc)

/-- Python `s.lower()` (ASCII part), used on the family name. -/
def pyLower (s : String) : String := String.mk (s.data.map Char.toLower)

/-- Model of `DevicePack.keep_this_pack()`: the ordered whitelist checks of
the script, in source order. -/
def DevicePack.keep_this_pack (p : DevicePack) : Bool :=
  if p.manufacturer ≠ "Microchip" then false
  else
    let family := pyLower p.family
    if "_tp".data.isSuffixOf family.data then false
    else if "sam".data.isPrefixOf family.data || "pic32c".data.isPrefixOf family.data then true
    else if "pic32w".data.isPrefixOf family.data then true
    else if "cec".data.isPrefixOf family.data || "dec".data.isPrefixOf family.data
            || "mec".data.isPrefixOf family.data then true
    else if "wrl".data.isPrefixOf family.data then true
    else false

/-- The attribute list Python's `HTMLParser` passes to `handle_starttag`:
pairs of attribute name and value, the value being `None` for a bare
attribute such as `download`. -/
abbrev Attrs := List (String × Option String)

/-- One start-tag event as delivered by the HTML tokenizer: tag name and
attribute list. -/
abbrev TagEvent := String × Attrs

/-- One iteration of the attribute loop in `handle_starttag`, threading the
`(href, download)` state: a `download` attribute sets the flag, and an
`href` attribute whose value is truthy and ends in `PACKS_EXTENSION`
replaces the held href (so the last qualifying href wins). -/
def stepAttr (acc : String × Bool) (attr : String × Option String) : String × Bool :=
  if attr.1 = "download" then (acc.1, true)
  else if attr.1 = "href" then
    match attr.2 with
    | some v =>
      if v ≠ "" ∧ PACKS_EXTENSION.data.isSuffixOf v.data = true then (v, acc.2) else acc
    | none => acc
  else acc

/-- The whole attribute loop of `handle_starttag`, started from
`href = ''` and `download = False`. -/
def scanAttrs (attrs : Attrs) : String × Bool :=
  attrs.foldl stepAttr ("", false)

/-- State of the `PacksHtmlParser` object: the accumulated `links` list. -/
structure PacksHtmlParser where
  links : List DevicePack
deriving DecidableEq, Repr

/-- Model of `PacksHtmlParser.handle_starttag(tag, attrs)`.  On an `a` tag
with a `download` attribute it constructs `DevicePack(href)`; the
constructor's `ValueError` is not caught anywhere, so it surfaces as
`Except.error`.  A pack accepted by `keep_this_pack` is appended to the
links list. -/
def PacksHtmlParser.handle_starttag (st : PacksHtmlParser) (tag : String)
    (attrs : Attrs) : Except String PacksHtmlParser :=
  if tag = "a" then
    if (scanAttrs attrs).2 then
      match DevicePack.init (scanAttrs attrs).1 with
      | Except.error e => Except.error e
      | Except.ok pack =>
        if pack.keep_this_pack then Except.ok ⟨st.links ++ [pack]⟩ else Except.ok st
    else Except.ok st
  else Except.ok st

/-- Model of `parser.feed(html)` restricted to what the script's subclass
observes: the sequence of start-tag events, handled in document order.  An
exception raised by `handle_starttag` propagates and aborts the feed. -/
def feedTags (st : PacksHtmlParser) : List TagEvent → Except String PacksHtmlParser
  | [] => Except.ok st
  | (tag, attrs) :: rest =>
    match st.handle_starttag tag attrs with
    | Except.error e => Except.error e
    | Except.ok st2 => feedTags st2 rest

/-- Lookup in the association-list model of the Python `dict`
(`family in latest_packs` / `latest_packs[family]`). -/
def alookup : List (String × DevicePack) → String → Option DevicePack
  | [], _ => none
  | kv :: rest, f => if kv.1 = f then some kv.2 else alookup rest f

/-- In-place update of an existing key, modelling that assigning to a key
already present in a Python `dict` keeps its insertion position. -/
def setEntry : List (String × DevicePack) → String → DevicePack → List (String × DevicePack)
  | [], _, _ => []
  | kv :: rest, f, p => if kv.1 = f then (kv.1, p) :: rest else kv :: setEntry rest f p

/-- One iteration of the reduce loop in `__main__`: a family already in the
table is replaced only on a strictly greater version; a new family is
appended. -/
def reduceStep (m : List (String × DevicePack)) (pack : DevicePack) :
    List (String × DevicePack) :=
  match alookup m pack.family with
  | some q => if pack.version > q.version then setEntry m pack.family pack else m
  | none => m ++ [(pack.family, pack)]

/-- The whole reduce loop of `__main__`, building `latest_packs` from the
extracted links. -/
def latest_packs (packs : List DevicePack) : List (String × DevicePack) :=
  packs.foldl reduceStep []

/-- The report loop of `__main__`: one printed line per table entry, in the
dict's insertion order. -/
def reportLines (m : List (String × DevicePack)) : List String :=
  m.map (fun kv => "Latest version of pack " ++ kv.1 ++ " is " ++ kv.2.version_str)

/-- Keys of the association-list table, in insertion order. -/
def keysOf (m : List (String × DevicePack)) : List String := m.map Prod.fst

/-- Modelled from the spec (§4.4): combine an already-held record (left)
with a later candidate (right), keeping the left one unless the right one
has a strictly greater version key. -/
def mergeLatest : Option DevicePack → Option DevicePack → Option DevicePack
  | none, o => o
  | some p, none => some p
  | some p, some q => if q.version > p.version then some q else some p

/-- Modelled from the spec (§4.4, the claim's words): among the records of
family `f`, the first one attaining the greatest version key — ties keep the
first-seen record. -/
def specLatestFirstSeen (f : String) : List DevicePack → Option DevicePack
  | [] => none
  | p :: rest =>
    if p.family = f then mergeLatest (some p) (specLatestFirstSeen f rest)
    else specLatestFirstSeen f rest

/-- Modelled from the amended extraction contract: the packs collected from
a start-tag stream, in document order — one candidate per `a` tag carrying a
`download` attribute, parsed from its effective href and kept when the
family filter accepts it; a candidate that fails to parse aborts extraction,
so nothing later is collected. -/
def specLinks : List TagEvent → List DevicePack
  | [] => []
  | (tag, attrs) :: rest =>
    if tag = "a" ∧ (scanAttrs attrs).2 = true then
      match DevicePack.init (scanAttrs attrs).1 with
      | Except.ok p => (if p.keep_this_pack then [p] else []) ++ specLinks rest
      | Except.error _ => []
    else specLinks rest

/-- Modelled from the spec (§4.5): the families of a record sequence in
order of first occurrence, skipping families already seen. -/
def newFamilies (seen : List String) : List DevicePack → List String
  | [] => []
  | p :: rest =>
    if p.family ∈ seen then newFamilies seen rest
    else p.family :: newFamilies (p.family :: seen) rest

/-- Modelled from the spec: the version text reported for family `f`, taken
from the family's latest (first-seen-wins) record. -/
def specVersionTextAt (f : String) (packs : List DevicePack) : String :=
  match specLatestFirstSeen f packs with
  | some p => p.version_str
  | none => ""

/-- Modelled from the amended §3 contract: the raw text of the three
version fields of the bare file name, joined with dots — leading zeros and
signs preserved verbatim. -/
def rawVersionText (path : String) : String :=
  String.mk ((bareParts path).getD 2 [] ++ ('.' :: (bareParts path).getD 3 [])
    ++ ('.' :: (bareParts path).getD 4 []))

/-- Concrete pack parsed from the spec's well-formed example name. -/
def samplePack : DevicePack :=
  { path := "Microchip.SAML10_DFP.3.5.87.atpack", manufacturer := "Microchip",
    family := "SAML10_DFP", version_str := "3.5.87", version := versionKey 3 5 87,
    extension := "atpack" }

/-- Start-tag event for a well-formed download anchor. -/
def goodEvent : TagEvent :=
  ("a", [("href", some "Microchip.SAML10_DFP.3.5.87.atpack"), ("download", none)])

/-- Start-tag event for a download anchor whose pack name is malformed
(three dot-separated fields instead of six). -/
def badEvent : TagEvent :=
  ("a", [("download", none), ("href", some "Microchip.SAMbad.atpack")])

/-- Start-tag event for a download anchor of another manufacturer: it meets
both link conditions (download attribute, `.atpack` href) but fails the
family filter. -/
def armEvent : TagEvent :=
  ("a", [("href", some "ARM.CMSIS.5.9.0.atpack"), ("download", none)])

/-- Anchor carrying a qualifying href but no download attribute. -/
def noDownloadEvent : TagEvent := ("a", [("href", some "x.atpack")])

/-- Concrete pack parsed from a name whose major version field is written
with a leading zero. -/
def zeroPadPack : DevicePack :=
  { path := "Microchip.SAM_DFP.03.5.87.atpack", manufacturer := "Microchip",
    family := "SAM_DFP", version_str := "03.5.87", version := versionKey 3 5 87,
    extension := "atpack" }

/-- Claim C7 (confirmed): the record parser takes the substring after the
final slash as the bare file name, splits it on dots, and fails with the
malformed-name error whenever that split does not have exactly 6 fields; in
particular the empty string fails. -/
theorem init_error_without_six_fields (path : String)
    (h : (bareParts path).length ≠ 6) :
    DevicePack.init path = Except.error ("Unexpected pack name format for pack " ++ path) := by
  simp [DevicePack.init, h]

/-- Witness for C7 at the empty string. -/
theorem init_error_without_six_fields_witness :
    (bareParts "").length ≠ 6 ∧
      DevicePack.init "" = Except.error ("Unexpected pack name format for pack " ++ "") :=
  ⟨by decide, init_error_without_six_fields "" (by decide)⟩

/-- Claim C3 (amended): construction succeeds exactly when the bare name
has six dot-separated fields whose three version fields parse as Python
integers; no sign or range check is applied. -/
theorem init_ok_iff_fields_parse (path : String) :
    (∃ r, DevicePack.init path = Except.ok r) ↔
      ((bareParts path).length = 6 ∧ (pyInt ((bareParts path).getD 2 [])).isSome
        ∧ (pyInt ((bareParts path).getD 3 [])).isSome
        ∧ (pyInt ((bareParts path).getD 4 [])).isSome) := by
  by_cases h6 : (bareParts path).length = 6
  · simp only [DevicePack.init, h6, if_true]
    cases h2 : pyInt ((bareParts path).getD 2 []) <;>
      cases h3 : pyInt ((bareParts path).getD 3 []) <;>
        cases h4 : pyInt ((bareParts path).getD 4 []) <;>
          simp [h2, h3, h4]
  · simp [DevicePack.init, h6]

/-- Counterexample for C3 as stated: a six-digit and a negative version
component are both accepted by the constructor instead of failing. -/
theorem init_accepts_out_of_range_components :
    (DevicePack.init "Microchip.SAM_DFP.100000.0.0.atpack").map DevicePack.version
        = Except.ok 1000000000000000 ∧
      (DevicePack.init "Microchip.SAM_DFP.-1.0.0.atpack").map DevicePack.version
        = Except.ok (-10000000000) := by
  decide

/-- Claim C4 (confirmed): parsing is deterministic, and under the
five-digit bound of valid names the version key is strictly monotone in the
lexicographic order of the (major, minor, patch) triple. -/
theorem versionKey_lex_strict_mono :
    (∀ (n1 n2 : String) (r1 r2 : DevicePack), n1 = n2 →
      DevicePack.init n1 = Except.ok r1 → DevicePack.init n2 = Except.ok r2 →
      r1.version = r2.version) ∧
    ∀ x1 y1 z1 x2 y2 z2 : Int,
      0 ≤ x1 → x1 ≤ 99999 → 0 ≤ y1 → y1 ≤ 99999 → 0 ≤ z1 → z1 ≤ 99999 →
      0 ≤ x2 → x2 ≤ 99999 → 0 ≤ y2 → y2 ≤ 99999 → 0 ≤ z2 → z2 ≤ 99999 →
      (versionKey x1 y1 z1 > versionKey x2 y2 z2 ↔
        (x1 > x2 ∨ (x1 = x2 ∧ (y1 > y2 ∨ (y1 = y2 ∧ z1 > z2))))) := by
  constructor
  · intro n1 n2 r1 r2 hn h1 h2
    rw [hn, h2] at h1
    cases h1
    rfl
  · intro x1 y1 z1 x2 y2 z2 hx1 hx1' hy1 hy1' hz1 hz1' hx2 hx2' hy2 hy2' hz2 hz2'
    unfold versionKey
    omega

/-- Witness for C4 at the triples (1, 0, 0) and (0, 99999, 99999). -/
theorem versionKey_lex_strict_mono_witness :
    versionKey 1 0 0 > versionKey 0 99999 99999 ↔
      ((1 : Int) > 0 ∨ ((1 : Int) = 0 ∧ ((0 : Int) > 99999 ∨ ((0 : Int) = 99999 ∧ (0 : Int) > 99999)))) :=
  versionKey_lex_strict_mono.2 1 0 0 0 99999 99999 (by decide) (by decide) (by decide)
    (by decide) (by decide) (by decide) (by decide) (by decide) (by decide) (by decide)
    (by decide) (by decide)

/-- Claim C8 (amended): the version string of a successfully constructed
record is the raw text of the three version fields joined with dots, leading
zeros preserved. -/
theorem version_str_eq_rawVersionText (path : String) (r : DevicePack)
    (h : DevicePack.init path = Except.ok r) :
    r.version_str = rawVersionText path := by
  simp only [DevicePack.init] at h
  by_cases h6 : (bareParts path).length = 6
  · rw [if_pos h6] at h
    cases h2 : pyInt ((bareParts path).getD 2 []) <;> rw [h2] at h <;>
      cases h3 : pyInt ((bareParts path).getD 3 []) <;> rw [h3] at h <;>
        cases h4 : pyInt ((bareParts path).getD 4 []) <;> rw [h4] at h <;>
          (cases h <;> rfl)
  · rw [if_neg h6] at h
    cases h

/-- Witness for C8 at the spec's example pack name. -/
theorem version_str_eq_rawVersionText_witness :
    samplePack.version_str = rawVersionText "Microchip.SAML10_DFP.3.5.87.atpack" :=
  version_str_eq_rawVersionText "Microchip.SAML10_DFP.3.5.87.atpack" samplePack (by decide)

/-- Counterexample for C8 as stated: a major field written `03` is kept as
`03` in the version string even though it parses to the integer 3, so the
version string is not rendered from the parsed components. -/
theorem version_str_keeps_leading_zeros :
    (DevicePack.init "Microchip.SAM_DFP.03.5.87.atpack").map DevicePack.version_str
        = Except.ok "03.5.87" ∧
      (DevicePack.init "Microchip.SAM_DFP.03.5.87.atpack").map DevicePack.version
        = Except.ok (versionKey 3 5 87) ∧
      ("03.5.87" : String) ≠ "3.5.87" := by
  decide

/-- Claim C5 (confirmed): the whitelist accepts a pack exactly when the
manufacturer is the exact string Microchip, the lower-cased family does not
end in the tool-pack suffix, and the lower-cased family starts with one of
the seven accepted prefixes; the tool-pack rejection takes precedence over
any prefix match. -/
theorem keep_this_pack_iff (p : DevicePack) :
    p.keep_this_pack = true ↔
      (p.manufacturer = "Microchip"
        ∧ "_tp".data.isSuffixOf (pyLower p.family).data = false
        ∧ ("sam".data.isPrefixOf (pyLower p.family).data = true
            ∨ "pic32c".data.isPrefixOf (pyLower p.family).data = true
            ∨ "pic32w".data.isPrefixOf (pyLower p.family).data = true
            ∨ "cec".data.isPrefixOf (pyLower p.family).data = true
            ∨ "dec".data.isPrefixOf (pyLower p.family).data = true
            ∨ "mec".data.isPrefixOf (pyLower p.family).data = true
            ∨ "wrl".data.isPrefixOf (pyLower p.family).data = true)) := by
  by_cases hm : p.manufacturer = "Microchip"
  · cases hs : "_tp".data.isSuffixOf (pyLower p.family).data <;>
      cases h1 : "sam".data.isPrefixOf (pyLower p.family).data <;>
      cases h2 : "pic32c".data.isPrefixOf (pyLower p.family).data <;>
      cases h3 : "pic32w".data.isPrefixOf (pyLower p.family).data <;>
      cases h4 : "cec".data.isPrefixOf (pyLower p.family).data <;>
      cases h5 : "dec".data.isPrefixOf (pyLower p.family).data <;>
      cases h6 : "mec".data.isPrefixOf (pyLower p.family).data <;>
      cases h7 : "wrl".data.isPrefixOf (pyLower p.family).data <;>
      simp [DevicePack.keep_this_pack, hm, hs, h1, h2, h3, h4, h5, h6, h7]
  · simp [DevicePack.keep_this_pack, hm]

/-- Claim C1 (amended): a download anchor whose effective href fails to
parse makes `handle_starttag` raise, and the exception propagates out of the
feed immediately — the remaining events are never processed. -/
theorem malformed_download_link_aborts_feed (st : PacksHtmlParser) (attrs : Attrs)
    (rest : List TagEvent) (e : String)
    (hdl : (scanAttrs attrs).2 = true)
    (herr : DevicePack.init (scanAttrs attrs).1 = Except.error e) :
    feedTags st (("a", attrs) :: rest) = Except.error e := by
  simp [feedTags, PacksHtmlParser.handle_starttag, hdl, herr]

/-- Witness for C1 (amended) at a concrete malformed download anchor. -/
theorem malformed_download_link_aborts_feed_witness :
    feedTags ⟨[]⟩ [badEvent]
      = Except.error "Unexpected pack name format for pack Microchip.SAMbad.atpack" :=
  malformed_download_link_aborts_feed ⟨[]⟩ badEvent.2 []
    "Unexpected pack name format for pack Microchip.SAMbad.atpack" (by decide) (by decide)

/-- Counterexample for C1 as stated: with a malformed download link first,
the run aborts with the constructor's error and the later well-formed link
is never collected, although processing that later link alone succeeds. -/
theorem malformed_link_stops_processing :
    feedTags ⟨[]⟩ [badEvent, goodEvent]
        = Except.error "Unexpected pack name format for pack Microchip.SAMbad.atpack" ∧
      feedTags ⟨[]⟩ [goodEvent] = Except.ok ⟨[samplePack]⟩ := by
  decide

/-- Helper: a successful feed appends exactly the spec-level extraction of
the event stream to the links already held. -/
theorem feed_links_eq : ∀ (events : List TagEvent) (st st' : PacksHtmlParser),
    feedTags st events = Except.ok st' → st'.links = st.links ++ specLinks events := by
  intro events
  induction events with
  | nil =>
    intro st st' h
    cases h
    simp [specLinks]
  | cons ev rest ih =>
    intro st st' h
    obtain ⟨tag, attrs⟩ := ev
    by_cases ht : tag = "a"
    · subst ht
      by_cases hdl : (scanAttrs attrs).2 = true
      · cases hinit : DevicePack.init (scanAttrs attrs).1 with
        | error e =>
          simp [feedTags, PacksHtmlParser.handle_starttag, hdl, hinit] at h
        | ok p =>
          by_cases hkeep : p.keep_this_pack = true
          · have h2 : feedTags ⟨st.links ++ [p]⟩ rest = Except.ok st' := by
              simpa [feedTags, PacksHtmlParser.handle_starttag, hdl, hinit, hkeep] using h
            have h3 := ih ⟨st.links ++ [p]⟩ st' h2
            simp [specLinks, hdl, hinit, hkeep, h3]
          · have h2 : feedTags st rest = Except.ok st' := by
              simpa [feedTags, PacksHtmlParser.handle_starttag, hdl, hinit, hkeep] using h
            have h3 := ih st st' h2
            simp [specLinks, hdl, hinit, hkeep, h3]
      · have h2 : feedTags st rest = Except.ok st' := by
          simpa [feedTags, PacksHtmlParser.handle_starttag, hdl] using h
        have h3 := ih st st' h2
        simp [specLinks, hdl, h3]
    · have h2 : feedTags st rest = Except.ok st' := by
        simpa [feedTags, PacksHtmlParser.handle_starttag, ht] using h
      have h3 := ih st st' h2
      simp [specLinks, ht, h3]

/-- Claim C2 (amended): a successful run's link list is exactly the
spec-level extraction — one record, in document order, for each anchor
bearing a download attribute whose effective href parses and passes the
family filter. -/
theorem links_eq_spec_extraction (events : List TagEvent) (st' : PacksHtmlParser)
    (h : feedTags ⟨[]⟩ events = Except.ok st') : st'.links = specLinks events := by
  simpa using feed_links_eq events ⟨[]⟩ st' h

/-- Witness for C2 (amended) on a stream with one qualifying anchor, one
non-anchor tag and one anchor without the download attribute. -/
theorem links_eq_spec_extraction_witness :
    (PacksHtmlParser.mk [samplePack]).links
      = specLinks [goodEvent, ("div", []), noDownloadEvent] :=
  links_eq_spec_extraction [goodEvent, ("div", []), noDownloadEvent] ⟨[samplePack]⟩ (by decide)

/-- Counterexample for C2 as stated: an anchor that has both the download
attribute and an `.atpack` href yields no link at all, because the code also
applies the family filter before recording it. -/
theorem qualifying_anchor_yields_no_link :
    feedTags ⟨[]⟩ [armEvent] = Except.ok ⟨[]⟩ ∧
      (PacksHtmlParser.mk []).links.map DevicePack.path ≠ ["ARM.CMSIS.5.9.0.atpack"] := by
  decide

/-- Helper: one attribute step keeps the held href empty or ending in the
pack extension. -/
theorem stepAttr_href_suffix (acc : String × Bool) (attr : String × Option String)
    (h : acc.1 = "" ∨ PACKS_EXTENSION.data.isSuffixOf acc.1.data = true) :
    (stepAttr acc attr).1 = ""
      ∨ PACKS_EXTENSION.data.isSuffixOf (stepAttr acc attr).1.data = true := by
  obtain ⟨an, av⟩ := attr
  unfold stepAttr
  dsimp only
  by_cases h1 : an = "download"
  · rw [if_pos h1]
    exact h
  · rw [if_neg h1]
    by_cases h2 : an = "href"
    · rw [if_pos h2]
      cases av with
      | none => exact h
      | some v =>
        dsimp only
        by_cases hc : v ≠ "" ∧ PACKS_EXTENSION.data.isSuffixOf v.data = true
        · rw [if_pos hc]
          exact Or.inr hc.2
        · rw [if_neg hc]
          exact h
    · rw [if_neg h2]
      exact h

/-- Helper: the attribute scan only ever produces an empty href or one
ending in the pack extension. -/
theorem foldl_stepAttr_href_suffix (attrs : Attrs) : ∀ acc : String × Bool,
    (acc.1 = "" ∨ PACKS_EXTENSION.data.isSuffixOf acc.1.data = true) →
    ((attrs.foldl stepAttr acc).1 = ""
      ∨ PACKS_EXTENSION.data.isSuffixOf (attrs.foldl stepAttr acc).1.data = true) := by
  induction attrs with
  | nil => intro acc h; exact h
  | cons a rest ih =>
    intro acc h
    rw [List.foldl_cons]
    exact ih _ (stepAttr_href_suffix acc a h)

/-- Helper: `scanAttrs` yields an empty href or one ending in `.atpack`. -/
theorem scanAttrs_href_suffix (attrs : Attrs) :
    (scanAttrs attrs).1 = ""
      ∨ PACKS_EXTENSION.data.isSuffixOf (scanAttrs attrs).1.data = true :=
  foldl_stepAttr_href_suffix attrs ("", false) (Or.inl rfl)

/-- Helper: a successfully constructed record stores the constructor's
argument as its path. -/
theorem init_path_eq (path : String) (r : DevicePack)
    (h : DevicePack.init path = Except.ok r) : r.path = path := by
  simp only [DevicePack.init] at h
  by_cases h6 : (bareParts path).length = 6
  · rw [if_pos h6] at h
    cases h2 : pyInt ((bareParts path).getD 2 []) <;> rw [h2] at h <;>
      cases h3 : pyInt ((bareParts path).getD 3 []) <;> rw [h3] at h <;>
        cases h4 : pyInt ((bareParts path).getD 4 []) <;> rw [h4] at h <;>
          (cases h <;> rfl)
  · rw [if_neg h6] at h
    cases h

/-- Helper: every pack in the spec-level extraction passed the family
filter and carries an `.atpack` path. -/
theorem specLinks_invariant : ∀ (events : List TagEvent) (p : DevicePack),
    p ∈ specLinks events →
    p.keep_this_pack = true ∧ PACKS_EXTENSION.data.isSuffixOf p.path.data = true := by
  intro events
  induction events with
  | nil => intro p h; simp [specLinks] at h
  | cons ev rest ih =>
    intro p h
    obtain ⟨tag, attrs⟩ := ev
    by_cases hc : tag = "a" ∧ (scanAttrs attrs).2 = true
    · simp only [specLinks, if_pos hc] at h
      cases hinit : DevicePack.init (scanAttrs attrs).1 with
      | error e => simp [hinit] at h
      | ok q =>
        simp only [hinit] at h
        by_cases hkeep : q.keep_this_pack = true
        · rw [if_pos hkeep] at h
          simp only [List.singleton_append, List.mem_cons] at h
          rcases h with h | h
          · subst h
            refine ⟨hkeep, ?_⟩
            have hpath : p.path = (scanAttrs attrs).1 := init_path_eq _ _ hinit
            rcases scanAttrs_href_suffix attrs with hempty | hsuf
            · exfalso
              rw [hempty] at hinit
              have herr : DevicePack.init ""
                  = Except.error ("Unexpected pack name format for pack ") := by decide
              rw [herr] at hinit
              exact Except.noConfusion hinit
            · rw [hpath]; exact hsuf
          · exact ih p h
        · rw [if_neg hkeep] at h
          simp only [List.nil_append] at h
          exact ih p h
    · simp only [specLinks, if_neg hc] at h
      exact ih p h

/-- Helper: a successful lookup returns one of the table's values. -/
theorem alookup_mem_values : ∀ (m : List (String × DevicePack)) (f : String) (q : DevicePack),
    alookup m f = some q → q ∈ m.map Prod.snd := by
  intro m
  induction m with
  | nil => intro f q h; cases h
  | cons kv rest ih =>
    intro f q h
    simp only [alookup] at h
    by_cases hk : kv.1 = f
    · rw [if_pos hk] at h
      cases h
      simp
    · rw [if_neg hk] at h
      simp only [List.map_cons, List.mem_cons]
      exact Or.inr (ih f q h)

/-- Helper: an in-place update's values come from the old table or the new
pack. -/
theorem values_setEntry : ∀ (m : List (String × DevicePack)) (k : String) (p q : DevicePack),
    q ∈ (setEntry m k p).map Prod.snd → q ∈ m.map Prod.snd ∨ q = p := by
  intro m
  induction m with
  | nil => intro k p q h; simp [setEntry] at h
  | cons kv rest ih =>
    intro k p q h
    simp only [setEntry] at h
    by_cases hk : kv.1 = k
    · rw [if_pos hk] at h
      simp only [List.map_cons, List.mem_cons] at h
      rcases h with h | h
      · exact Or.inr h
      · exact Or.inl (by simp [h])
    · rw [if_neg hk] at h
      simp only [List.map_cons, List.mem_cons] at h
      rcases h with h | h
      · exact Or.inl (by simp [h])
      · rcases ih k p q h with h2 | h2
        · exact Or.inl (by simp [h2])
        · exact Or.inr h2

/-- Helper: one reduce step's values come from the old table or the new
pack. -/
theorem values_reduceStep (m : List (String × DevicePack)) (p q : DevicePack)
    (h : q ∈ (reduceStep m p).map Prod.snd) : q ∈ m.map Prod.snd ∨ q = p := by
  cases hq : alookup m p.family with
  | none =>
    simp only [reduceStep, hq] at h
    simp only [List.map_append, List.mem_append] at h
    rcases h with h | h
    · exact Or.inl h
    · simp at h; exact Or.inr h
  | some q0 =>
    simp only [reduceStep, hq] at h
    by_cases hv : p.version > q0.version
    · rw [if_pos hv] at h
      exact values_setEntry m p.family p q h
    · rw [if_neg hv] at h
      exact Or.inl h

/-- Helper: every value of the folded table comes from the initial table or
from the input sequence. -/
theorem values_foldl : ∀ (l : List DevicePack) (m : List (String × DevicePack)) (q : DevicePack),
    q ∈ ((l.foldl reduceStep m).map Prod.snd) → q ∈ m.map Prod.snd ∨ q ∈ l := by
  intro l
  induction l with
  | nil => intro m q h; exact Or.inl h
  | cons p rest ih =>
    intro m q h
    rw [List.foldl_cons] at h
    rcases ih (reduceStep m p) q h with h2 | h2
    · rcases values_reduceStep m p q h2 with h3 | h3
      · exact Or.inl h3
      · exact Or.inr (by simp [h3])
    · exact Or.inr (List.mem_cons_of_mem _ h2)

/-- Claim C10 (confirmed): every pack ever appended to the links list of a
successful feed passed `keep_this_pack` and stores a path ending in
`.atpack`, and so does every value of the latest-pack table built from that
list. -/
theorem extracted_links_invariant (events : List TagEvent) (st' : PacksHtmlParser)
    (h : feedTags ⟨[]⟩ events = Except.ok st') :
    (∀ p ∈ st'.links,
        p.keep_this_pack = true ∧ PACKS_EXTENSION.data.isSuffixOf p.path.data = true) ∧
      (∀ (f : String) (q : DevicePack), alookup (latest_packs st'.links) f = some q →
        q.keep_this_pack = true ∧ PACKS_EXTENSION.data.isSuffixOf q.path.data = true) := by
  have hlinks : st'.links = specLinks events := by
    simpa using feed_links_eq events ⟨[]⟩ st' h
  constructor
  · intro p hp
    exact specLinks_invariant events p (hlinks ▸ hp)
  · intro f q hq
    have hv : q ∈ (latest_packs st'.links).map Prod.snd := alookup_mem_values _ f q hq
    rcases values_foldl st'.links [] q (by simpa [latest_packs] using hv) with h0 | hmem
    · simp at h0
    · rw [hlinks] at hmem
      exact specLinks_invariant events q hmem

/-- Witness for C10 on a single well-formed download anchor. -/
theorem extracted_links_invariant_witness :
    samplePack.keep_this_pack = true
      ∧ PACKS_EXTENSION.data.isSuffixOf samplePack.path.data = true :=
  (extracted_links_invariant [goodEvent] ⟨[samplePack]⟩ (by decide)).1 samplePack (by simp)

/-- Helper: appending entries does not change a lookup that already hits. -/
theorem alookup_append_some : ∀ (m l : List (String × DevicePack)) (f : String) (q : DevicePack),
    alookup m f = some q → alookup (m ++ l) f = some q := by
  intro m l f q h
  induction m with
  | nil => cases h
  | cons kv rest ih =>
    simp only [alookup] at h ⊢
    by_cases hk : kv.1 = f
    · rwa [if_pos hk] at h ⊢
    · rw [if_neg hk] at h ⊢
      exact ih h

/-- Helper: a lookup that misses the front part continues in the back
part. -/
theorem alookup_append_none : ∀ (m l : List (String × DevicePack)) (f : String),
    alookup m f = none → alookup (m ++ l) f = alookup l f := by
  intro m l f h
  induction m with
  | nil => rfl
  | cons kv rest ih =>
    simp only [alookup] at h ⊢
    by_cases hk : kv.1 = f
    · rw [if_pos hk] at h; cases h
    · rw [if_neg hk] at h ⊢
      exact ih h

/-- Helper: updating a present key in place makes its lookup return the new
value. -/
theorem alookup_setEntry_self : ∀ (m : List (String × DevicePack)) (f : String) (p q : DevicePack),
    alookup m f = some q → alookup (setEntry m f p) f = some p := by
  intro m
  induction m with
  | nil => intro f p q h; cases h
  | cons kv rest ih =>
    intro f p q h
    simp only [alookup, setEntry] at h ⊢
    by_cases hk : kv.1 = f
    · rw [if_pos hk]
      simp [alookup, hk]
    · rw [if_neg hk] at h ⊢
      simp only [alookup, if_neg hk]
      exact ih f p q h

/-- Helper: updating one key leaves lookups of other keys unchanged. -/
theorem alookup_setEntry_other : ∀ (m : List (String × DevicePack)) (k f : String) (p : DevicePack),
    k ≠ f → alookup (setEntry m k p) f = alookup m f := by
  intro m
  induction m with
  | nil => intro k f p hk; rfl
  | cons kv rest ih =>
    intro k f p hk
    simp only [setEntry, alookup]
    by_cases h1 : kv.1 = k
    · rw [if_pos h1]
      simp only [alookup]
      rw [if_neg (h1 ▸ hk), if_neg (h1 ▸ hk)]
    · rw [if_neg h1]
      simp only [alookup]
      by_cases h2 : kv.1 = f
      · rw [if_pos h2, if_pos h2]
      · rw [if_neg h2, if_neg h2]
        exact ih k f p hk

/-- Helper: the merge of an empty right-hand side. -/
theorem mergeLatest_none_right (o : Option DevicePack) : mergeLatest o none = o := by
  cases o <;> rfl

/-- Helper: first-seen-wins merging is associative. -/
theorem mergeLatest_assoc (a b c : Option DevicePack) :
    mergeLatest (mergeLatest a b) c = mergeLatest a (mergeLatest b c) := by
  cases a <;> cases b <;> cases c <;>
    simp only [mergeLatest] <;>
    (try split_ifs) <;>
    simp only [mergeLatest] <;>
    (try split_ifs) <;>
    first
      | rfl
      | omega

/-- Helper: one reduce step merges the new pack into its family's slot. -/
theorem alookup_reduceStep_self (m : List (String × DevicePack)) (p : DevicePack) :
    alookup (reduceStep m p) p.family = mergeLatest (alookup m p.family) (some p) := by
  cases hq : alookup m p.family with
  | none =>
    simp only [reduceStep, hq, mergeLatest]
    rw [alookup_append_none m _ _ hq]
    simp [alookup]
  | some q =>
    simp only [reduceStep, hq, mergeLatest]
    by_cases hv : p.version > q.version
    · rw [if_pos hv, if_pos hv]
      exact alookup_setEntry_self m p.family p q hq
    · rw [if_neg hv, if_neg hv]
      exact hq

/-- Helper: one reduce step leaves other families' slots unchanged. -/
theorem alookup_reduceStep_other (m : List (String × DevicePack)) (p : DevicePack)
    (f : String) (hf : p.family ≠ f) :
    alookup (reduceStep m p) f = alookup m f := by
  cases hq : alookup m p.family with
  | none =>
    simp only [reduceStep, hq]
    cases hmf : alookup m f with
    | none =>
      rw [alookup_append_none m _ _ hmf]
      simp [alookup, hf]
    | some q => exact alookup_append_some m _ _ _ hmf
  | some q =>
    simp only [reduceStep, hq]
    by_cases hv : p.version > q.version
    · rw [if_pos hv]
      exact alookup_setEntry_other m p.family f p hf
    · rw [if_neg hv]

/-- Helper: folding the reduce loop from any table merges, family by
family, the table's entry with the first-seen-wins maximum of the input. -/
theorem alookup_foldl_reduceStep : ∀ (packs : List DevicePack)
    (m : List (String × DevicePack)) (f : String),
    alookup (packs.foldl reduceStep m) f
      = mergeLatest (alookup m f) (specLatestFirstSeen f packs) := by
  intro packs
  induction packs with
  | nil =>
    intro m f
    simp only [List.foldl_nil, specLatestFirstSeen, mergeLatest_none_right]
  | cons p rest ih =>
    intro m f
    rw [List.foldl_cons, ih]
    by_cases hf : p.family = f
    · subst hf
      rw [alookup_reduceStep_self, mergeLatest_assoc]
      simp [specLatestFirstSeen]
    · rw [alookup_reduceStep_other m p f hf]
      simp [specLatestFirstSeen, hf]

/-- Helper: the latest-pack table's lookup agrees with the first-seen-wins
maximum of the input sequence. -/
theorem alookup_latest_spec (packs : List DevicePack) (f : String) :
    alookup (latest_packs packs) f = specLatestFirstSeen f packs := by
  have h := alookup_foldl_reduceStep packs [] f
  simpa [latest_packs, alookup, mergeLatest] using h

/-- Claim C6 (confirmed): the reducer maps each family to the record with
the strictly greatest version key, and on equal keys the first-seen record
is kept — a later record with an equal key never replaces it. -/
theorem latest_packs_first_seen_max (packs : List DevicePack) (f : String) :
    alookup (latest_packs packs) f = specLatestFirstSeen f packs :=
  alookup_latest_spec packs f

/-- Helper: a lookup misses exactly when the key is absent. -/
theorem alookup_none_iff : ∀ (m : List (String × DevicePack)) (f : String),
    alookup m f = none ↔ f ∉ keysOf m := by
  intro m
  induction m with
  | nil => intro f; simp [alookup, keysOf]
  | cons kv rest ih =>
    intro f
    simp only [alookup, keysOf, List.map_cons, List.mem_cons]
    by_cases hk : kv.1 = f
    · rw [if_pos hk]
      simp [hk]
    · rw [if_neg hk]
      rw [ih f]
      simp only [keysOf]
      constructor
      · intro h hmem
        rcases hmem with hmem | hmem
        · exact hk hmem.symm
        · exact h hmem
      · intro h hmem
        exact h (Or.inr hmem)

/-- Helper: an in-place update preserves the key sequence. -/
theorem keysOf_setEntry : ∀ (m : List (String × DevicePack)) (k : String) (p : DevicePack),
    keysOf (setEntry m k p) = keysOf m := by
  intro m
  induction m with
  | nil => intro k p; rfl
  | cons kv rest ih =>
    intro k p
    simp only [setEntry]
    by_cases hk : kv.1 = k
    · rw [if_pos hk]
      rfl
    · rw [if_neg hk]
      show kv.1 :: keysOf (setEntry rest k p) = kv.1 :: keysOf rest
      rw [ih k p]

/-- Helper: the first-occurrence scan depends on the seen set only through
membership. -/
theorem newFamilies_congr : ∀ (l : List DevicePack) (s1 s2 : List String),
    (∀ x, x ∈ s1 ↔ x ∈ s2) → newFamilies s1 l = newFamilies s2 l := by
  intro l
  induction l with
  | nil => intro s1 s2 h; rfl
  | cons p rest ih =>
    intro s1 s2 h
    simp only [newFamilies]
    by_cases hm : p.family ∈ s1
    · rw [if_pos hm, if_pos ((h p.family).mp hm)]
      exact ih s1 s2 h
    · rw [if_neg hm, if_neg (fun hc => hm ((h p.family).mpr hc))]
      refine congrArg _ (ih _ _ ?_)
      intro x
      simp only [List.mem_cons]
      exact or_congr Iff.rfl (h x)

/-- Helper: one reduce step appends the pack's family to the keys exactly
when it is new. -/
theorem keysOf_reduceStep (m : List (String × DevicePack)) (p : DevicePack) :
    keysOf (reduceStep m p)
      = if p.family ∈ keysOf m then keysOf m else keysOf m ++ [p.family] := by
  cases hq : alookup m p.family with
  | none =>
    have hmem : p.family ∉ keysOf m := (alookup_none_iff m p.family).mp hq
    rw [if_neg hmem]
    simp only [reduceStep, hq, keysOf, List.map_append]
    rfl
  | some q =>
    have hmem : p.family ∈ keysOf m := by
      by_contra hc
      rw [← alookup_none_iff m p.family] at hc
      rw [hq] at hc
      cases hc
    simp only [reduceStep, hq, if_pos hmem]
    by_cases hv : p.version > q.version
    · rw [if_pos hv, keysOf_setEntry]
    · rw [if_neg hv]

/-- Helper: folding the reduce loop appends the input's new families, in
first-occurrence order, to the keys of the starting table. -/
theorem keysOf_foldl : ∀ (packs : List DevicePack) (m : List (String × DevicePack)),
    keysOf (packs.foldl reduceStep m) = keysOf m ++ newFamilies (keysOf m) packs := by
  intro packs
  induction packs with
  | nil => intro m; simp [newFamilies]
  | cons p rest ih =>
    intro m
    rw [List.foldl_cons, ih, keysOf_reduceStep]
    by_cases hmem : p.family ∈ keysOf m
    · rw [if_pos hmem]
      simp [newFamilies, hmem]
    · rw [if_neg hmem]
      simp only [newFamilies, if_neg hmem]
      rw [newFamilies_congr rest (keysOf m ++ [p.family]) (p.family :: keysOf m)
        (by intro x; simp [or_comm])]
      simp

/-- Helper: a family emitted by the first-occurrence scan was not seen
before. -/
theorem newFamilies_not_mem : ∀ (l : List DevicePack) (seen : List String) (x : String),
    x ∈ newFamilies seen l → x ∉ seen := by
  intro l
  induction l with
  | nil => intro seen x h; simp [newFamilies] at h
  | cons p rest ih =>
    intro seen x h
    simp only [newFamilies] at h
    by_cases hm : p.family ∈ seen
    · rw [if_pos hm] at h
      exact ih seen x h
    · rw [if_neg hm] at h
      rcases List.mem_cons.mp h with h1 | h1
      · subst h1; exact hm
      · intro hx
        exact ih _ x h1 (List.mem_cons_of_mem _ hx)

/-- Helper: the first-occurrence scan has no duplicates. -/
theorem newFamilies_nodup : ∀ (l : List DevicePack) (seen : List String),
    (newFamilies seen l).Nodup := by
  intro l
  induction l with
  | nil => intro seen; simp [newFamilies]
  | cons p rest ih =>
    intro seen
    simp only [newFamilies]
    by_cases hm : p.family ∈ seen
    · rw [if_pos hm]
      exact ih seen
    · rw [if_neg hm]
      rw [List.nodup_cons]
      constructor
      · intro hc
        exact newFamilies_not_mem rest _ _ hc (List.mem_cons_self _ _)
      · exact ih _

/-- Helper: with distinct keys, the report is the per-key rendering of the
table's lookups, in key order. -/
theorem reportLines_eq_map_keys : ∀ (m : List (String × DevicePack)),
    (keysOf m).Nodup →
    reportLines m = (keysOf m).map (fun f =>
      match alookup m f with
      | some p => "Latest version of pack " ++ f ++ " is " ++ p.version_str
      | none => "") := by
  intro m
  induction m with
  | nil => intro h; rfl
  | cons kv rest ih =>
    intro h
    obtain ⟨k, v⟩ := kv
    simp only [keysOf, List.map_cons, List.nodup_cons] at h
    obtain ⟨hk, hrest⟩ := h
    simp only [reportLines, keysOf, List.map_cons]
    congr 1
    · have hl : alookup ((k, v) :: rest) k = some v := by simp [alookup]
      rw [hl]
    · have hih : reportLines rest = (keysOf rest).map (fun f =>
          match alookup rest f with
          | some p => "Latest version of pack " ++ f ++ " is " ++ p.version_str
          | none => "") := ih hrest
      rw [show List.map
            (fun kv => "Latest version of pack " ++ kv.1 ++ " is " ++ kv.2.version_str) rest
          = reportLines rest from rfl, hih]
      apply List.map_congr_left
      intro f hf
      have hne : ¬(k = f) := fun hc => hk (hc ▸ hf)
      have hl2 : alookup ((k, v) :: rest) f = alookup rest f := by simp [alookup, hne]
      rw [hl2]

/-- Claim C9 (amended): the report emits exactly one line per retained
family, in first-insertion order, each of the form
`Latest version of pack <family> is <versionText>` where the version text
is the raw dot-joined version text of that family's highest-version
(first-seen-wins) record. -/
theorem report_one_line_per_family (packs : List DevicePack) :
    reportLines (latest_packs packs)
      = (newFamilies [] packs).map
          (fun f => "Latest version of pack " ++ f ++ " is " ++ specVersionTextAt f packs) := by
  have hkeys : keysOf (latest_packs packs) = newFamilies [] packs := by
    have h := keysOf_foldl packs []
    simpa [latest_packs, keysOf] using h
  have hnd : (keysOf (latest_packs packs)).Nodup := by
    rw [hkeys]
    exact newFamilies_nodup packs []
  rw [reportLines_eq_map_keys _ hnd, hkeys]
  apply List.map_congr_left
  intro f hf
  dsimp only
  rw [alookup_latest_spec packs f]
  cases hs : specLatestFirstSeen f packs with
  | some p => simp [hs, specVersionTextAt]
  | none =>
    exfalso
    have h0 : alookup (latest_packs packs) f = none := by
      rw [alookup_latest_spec packs f, hs]
    have hnot : f ∉ keysOf (latest_packs packs) := (alookup_none_iff _ f).mp h0
    rw [hkeys] at hnot
    exact hnot hf

/-- Counterexample for C9 as stated: a version field written `03` appears
verbatim in the report line, which therefore differs from the line rendered
from the parsed integer components 3.5.87. -/
theorem report_line_keeps_raw_version_text :
    DevicePack.init "Microchip.SAM_DFP.03.5.87.atpack" = Except.ok zeroPadPack ∧
      reportLines (latest_packs [zeroPadPack])
        = ["Latest version of pack SAM_DFP is 03.5.87"] ∧
      (["Latest version of pack SAM_DFP is 03.5.87"] : List String)
        ≠ ["Latest version of pack SAM_DFP is 3.5.87"] := by
  decide
